import Mathlib

/-!
Verification of the analytical core of the two EDA scripts
(`exploratory_analysis.py` and `flight_data_analysis.py`).

The scripts operate on an in-memory table loaded from a CSV file. We embed a
table as a list of rows of an arbitrary type `ρ` together with accessor
functions (`f : ρ → ℚ` for a numeric column, `key : ρ → κ` for a categorical
column). Numeric cell values are embedded as exact rationals `ℚ`; a pandas
`NaN` result of an aggregate is embedded as `none : Option ℚ` (or `Option ℝ`
where square roots occur). pandas sorts are stable, which `List.insertionSort`
reproduces exactly (it inserts an earlier element in front of later,
equally-ranked ones).
-/

namespace EDA

/-- Sorting of a numeric column, ascending (what `Series.quantile` does
internally before interpolating). -/
def sortQ (xs : List ℚ) : List ℚ :=
  xs.insertionSort (· ≤ ·)

/-- Embedding of `Series.quantile(q)` with the default linear interpolation:
at fractional position `h = q * (n - 1)` of the ascending sort, the value is
`s[⌊h⌋] + (h - ⌊h⌋) * (s[⌊h⌋ + 1] - s[⌊h⌋])`.  Used at lines 185-186 of
`exploratory_analysis.py` (`df[col].quantile(0.25)` / `.quantile(0.75)`). -/
def quantile (xs : List ℚ) (q : ℚ) : ℚ :=
  let s := sortQ xs
  let pos : ℚ := q * ((s.length : ℚ) - 1)
  let i : ℕ := (Int.floor pos).toNat
  let lo := s.getD i 0
  let hi := s.getD (i + 1) lo
  lo + (pos - (i : ℚ)) * (hi - lo)

/-- Line 185: `Q1 = df[col].quantile(0.25)`. -/
def Q1 (xs : List ℚ) : ℚ := quantile xs (1 / 4)

/-- Line 186: `Q3 = df[col].quantile(0.75)`. -/
def Q3 (xs : List ℚ) : ℚ := quantile xs (3 / 4)

/-- Line 187: `IQR = Q3 - Q1`. -/
def IQR (xs : List ℚ) : ℚ := Q3 xs - Q1 xs

/-- Line 188: `lower_bound = Q1 - 1.5 * IQR`. -/
def lower_bound (xs : List ℚ) : ℚ := Q1 xs - 3 / 2 * IQR xs

/-- Line 189: `upper_bound = Q3 + 1.5 * IQR`. -/
def upper_bound (xs : List ℚ) : ℚ := Q3 xs + 3 / 2 * IQR xs

/-- Line 191: `outliers = df[(df[col] < lower_bound) | (df[col] > upper_bound)]`:
the rows whose value in the column is strictly below the lower bound or
strictly above the upper bound. -/
def outliers {ρ : Type} (rows : List ρ) (f : ρ → ℚ) : List ρ :=
  rows.filter fun r =>
    decide (f r < lower_bound (rows.map f)) || decide (upper_bound (rows.map f) < f r)

/-- C2: a row is in the outlier result iff its value is strictly less than
`lower_bound` or strictly greater than `upper_bound`; no row whose value lies
inside the closed band `[lower_bound, upper_bound]` appears in the result. -/
theorem outliers_mem_iff :
    ∀ (ρ : Type) (rows : List ρ) (f : ρ → ℚ) (r : ρ),
      (r ∈ outliers rows f ↔
        r ∈ rows ∧ (f r < lower_bound (rows.map f) ∨ upper_bound (rows.map f) < f r))
      ∧ (lower_bound (rows.map f) ≤ f r → f r ≤ upper_bound (rows.map f) →
          r ∉ outliers rows f) := by
  intro ρ rows f r
  constructor
  · rw [outliers, List.mem_filter]
    simp only [Bool.or_eq_true, decide_eq_true_eq]
  · intro hlo hhi hmem
    rw [outliers, List.mem_filter] at hmem
    rcases hmem with ⟨-, h⟩
    simp only [Bool.or_eq_true, decide_eq_true_eq] at h
    rcases h with h | h
    · exact absurd hlo (not_le.mpr h)
    · exact absurd hhi (not_le.mpr h)

/-- C1 (counterexample): on the column `[1, 2, 3, 100]` the code computes
`lower_bound = Q1 - 1.5 * IQR = 1.75 - 38.25 = -36.5`, not the `-36.0` the
claim states. -/
theorem c1_lower_bound_counterexample :
    lower_bound [1, 2, 3, 100] = -73 / 2 ∧ (-73 / 2 : ℚ) ≠ -36 := by
  constructor
  · norm_num [lower_bound, Q1, Q3, IQR, quantile, sortQ, List.insertionSort,
      List.orderedInsert, show Int.toNat 2 = 2 from rfl]
  · norm_num

/-- C1 (amended): for the 4-row column `X = [1, 2, 3, 100]` the outlier
computation yields `Q1 = 1.75`, `Q3 = 27.25`, `IQR = 25.5`,
`lower_bound = -36.5`, `upper_bound = 65.5`, and the outlier set is exactly
`{100}`. -/
theorem c1_outlier_scenario :
    Q1 [1, 2, 3, 100] = 7 / 4 ∧ Q3 [1, 2, 3, 100] = 109 / 4 ∧
    IQR [1, 2, 3, 100] = 51 / 2 ∧ lower_bound [1, 2, 3, 100] = -73 / 2 ∧
    upper_bound [1, 2, 3, 100] = 131 / 2 ∧
    outliers [(1 : ℚ), 2, 3, 100] id = [100] := by
  refine ⟨?_, ?_, ?_, ?_, ?_, ?_⟩ <;>
    norm_num [Q1, Q3, IQR, lower_bound, upper_bound, quantile, sortQ, outliers,
      List.insertionSort, List.orderedInsert, List.filter,
      show Int.toNat 2 = 2 from rfl]

/-! ## Pearson correlation (`df[numerical_cols].corr()`, lines 131-135 of
`exploratory_analysis.py` and lines 313-314 of `flight_data_analysis.py`).

Pandas computes `corr(x, y) = cov(x, y) / (std(x) * std(y))`, where the
`1/(n-1)` normalisations of covariance and standard deviation cancel, so the
coefficient equals `covSum / √(varSum x * varSum y)` on the centred sums.
When either column has zero variance the float result is `NaN`, embedded here
as `none`. -/

/-- Column mean, `sum / count` (for the empty column pandas yields `NaN`;
here division by zero yields the junk value `0`, which no claim relies on). -/
def mean (xs : List ℚ) : ℚ := xs.sum / xs.length

/-- Centred cross-product sum `Σᵢ (xᵢ - x̄)(yᵢ - ȳ)`; `(n-1)` normalisation
omitted because it cancels in the correlation quotient. -/
def covSum (xs ys : List ℚ) : ℚ :=
  ∑ i ∈ Finset.range (min xs.length ys.length),
    (xs.getD i 0 - mean xs) * (ys.getD i 0 - mean ys)

/-- Centred sum of squares `Σᵢ (xᵢ - x̄)²`. -/
def varSum (xs : List ℚ) : ℚ := covSum xs xs

/-- Pearson correlation coefficient of two columns; `none` embeds the `NaN`
pandas produces when a column is constant (zero variance). -/
noncomputable def corr (xs ys : List ℚ) : Option ℝ :=
  if varSum xs * varSum ys = 0 then none
  else some ((covSum xs ys : ℝ) / Real.sqrt ((varSum xs : ℝ) * (varSum ys : ℝ)))

theorem covSum_comm (xs ys : List ℚ) : covSum xs ys = covSum ys xs := by
  rw [covSum, covSum, min_comm]
  exact Finset.sum_congr rfl fun i _ => mul_comm _ _

theorem varSum_eq_sq_sum (xs : List ℚ) :
    varSum xs = ∑ i ∈ Finset.range xs.length, (xs.getD i 0 - mean xs) ^ 2 := by
  rw [varSum, covSum, min_self]
  exact Finset.sum_congr rfl fun i _ => (sq _).symm

theorem varSum_nonneg (xs : List ℚ) : 0 ≤ varSum xs := by
  rw [varSum_eq_sq_sum]
  exact Finset.sum_nonneg fun i _ => sq_nonneg _

theorem covSum_sq_le (xs ys : List ℚ) :
    covSum xs ys ^ 2 ≤ varSum xs * varSum ys := by
  have hcs := Finset.sum_mul_sq_le_sq_mul_sq
    (Finset.range (min xs.length ys.length))
    (fun i => xs.getD i 0 - mean xs) (fun i => ys.getD i 0 - mean ys)
  rw [covSum]
  refine hcs.trans (mul_le_mul ?_ ?_ (Finset.sum_nonneg fun i _ => sq_nonneg _)
    (varSum_nonneg xs))
  · rw [varSum_eq_sq_sum]
    exact Finset.sum_le_sum_of_subset_of_nonneg
      (Finset.range_subset.mpr (min_le_left _ _)) fun i _ _ => sq_nonneg _
  · rw [varSum_eq_sq_sum]
    exact Finset.sum_le_sum_of_subset_of_nonneg
      (Finset.range_subset.mpr (min_le_right _ _)) fun i _ _ => sq_nonneg _

/-- Helper: `corr` is `NaN` (`none`) whenever the right column has zero
variance (a constant column). -/
theorem corr_none_of_right (xs ys : List ℚ) (h : varSum ys = 0) :
    corr xs ys = none := by
  rw [corr, if_pos (by rw [h, mul_zero])]

/-- Helper: evaluation of a defined coefficient whose variance product is a
perfect square `s * s`. -/
theorem corr_eval (xs ys : List ℚ) (s : ℚ) (hx : varSum xs * varSum ys = s * s)
    (hs : 0 < s) : corr xs ys = some ((covSum xs ys : ℝ) / (s : ℝ)) := by
  have hne : varSum xs * varSum ys ≠ 0 := by
    rw [hx]
    exact mul_ne_zero (ne_of_gt hs) (ne_of_gt hs)
  rw [corr, if_neg hne]
  congr 1
  have hprod : (varSum xs : ℝ) * (varSum ys : ℝ) = (s : ℝ) ^ 2 := by
    have := congrArg (fun q : ℚ => (q : ℝ)) hx
    push_cast at this
    rw [this]
    ring
  rw [hprod, Real.sqrt_sq (by exact_mod_cast le_of_lt hs)]

/-- Helper: the exact coefficient of the spec's concrete scenario
`A = [1,2,3,4]`, `B = [4,3,2,1]`. -/
theorem corr_neg_one : corr [1, 2, 3, 4] [4, 3, 2, 1] = some (-1) := by
  have hv : varSum [(1 : ℚ), 2, 3, 4] * varSum [(4 : ℚ), 3, 2, 1] = 5 * 5 := by
    norm_num [varSum, covSum, mean, Finset.sum_range_succ, List.getD]
  rw [corr_eval _ _ 5 hv (by norm_num)]
  have hcov : covSum [1, 2, 3, 4] [4, 3, 2, 1] = -5 := by
    norm_num [covSum, mean, Finset.sum_range_succ, List.getD]
  rw [hcov]
  norm_num

/-- C4 (counterexample): for the constant column `[1, 1]` the code's
correlation matrix diagonal entry is `NaN` (embedded `none`), not `1.0`. -/
theorem c4_diagonal_counterexample :
    corr [1, 1] [1, 1] = none ∧ (none : Option ℝ) ≠ some 1 := by
  constructor
  · rw [corr, if_pos]
    norm_num [varSum, covSum, mean, Finset.sum_range_succ, List.getD]
  · simp

/-- C4 (amended): the correlation matrix is symmetric; every defined (non-NaN)
coefficient lies in `[-1, 1]`; each diagonal entry whose column has nonzero
variance equals `1.0` exactly; and for `A = [1,2,3,4]`, `B = [4,3,2,1]` the
coefficient is exactly `-1.0`. -/
theorem corr_matrix_properties :
    (∀ xs ys : List ℚ, corr xs ys = corr ys xs)
    ∧ (∀ (xs ys : List ℚ) (c : ℝ), corr xs ys = some c → |c| ≤ 1)
    ∧ (∀ xs : List ℚ, varSum xs ≠ 0 → corr xs xs = some 1)
    ∧ corr [1, 2, 3, 4] [4, 3, 2, 1] = some (-1) := by
  refine ⟨?_, ?_, ?_, ?_⟩
  · intro xs ys
    rw [corr, corr, covSum_comm, mul_comm ((varSum ys : ℝ)), mul_comm (varSum ys)]
  · intro xs ys c hc
    rw [corr] at hc
    by_cases h0 : varSum xs * varSum ys = 0
    · simp [h0] at hc
    · rw [if_neg h0, Option.some_inj] at hc
      have hprodQ : 0 ≤ varSum xs * varSum ys :=
        mul_nonneg (varSum_nonneg xs) (varSum_nonneg ys)
      have hprod : (0 : ℝ) < (varSum xs : ℝ) * (varSum ys : ℝ) := by
        have : (0 : ℝ) ≤ (varSum xs : ℝ) * (varSum ys : ℝ) := by
          exact_mod_cast hprodQ
        rcases this.lt_or_eq with h | h
        · exact h
        · exfalso
          apply h0
          have := h.symm
          push_cast at this
          exact_mod_cast this
      have hsq : ((covSum xs ys : ℝ)) ^ 2 ≤ (varSum xs : ℝ) * (varSum ys : ℝ) := by
        exact_mod_cast covSum_sq_le xs ys
      have habs : |(covSum xs ys : ℝ)| ≤ Real.sqrt ((varSum xs : ℝ) * (varSum ys : ℝ)) := by
        have := Real.sqrt_le_sqrt hsq
        rwa [Real.sqrt_sq_eq_abs] at this
      rw [← hc, abs_div, abs_of_nonneg (Real.sqrt_nonneg _)]
      rw [div_le_one (Real.sqrt_pos.mpr hprod)]
      exact habs
  · intro xs hv
    rw [corr, if_neg (by simpa [mul_self_eq_zero] using hv)]
    have hv0 : (0 : ℝ) ≤ (varSum xs : ℝ) := by exact_mod_cast varSum_nonneg xs
    have hvne : ((varSum xs : ℝ)) ≠ 0 := by exact_mod_cast hv
    rw [Real.sqrt_mul_self hv0, show covSum xs xs = varSum xs from rfl,
      div_self hvne]
  · exact corr_neg_one

/-! ## Grouped aggregation (`continent_analysis`, lines 100-124 of
`exploratory_analysis.py`).

`df.groupby(key)` enumerates the distinct observed key values in ascending
sorted order; per-group means skip missing values (`NaN`), so a group with no
value for a column has mean `NaN` and is skipped by `idxmax` rather than
treated as zero; `idxmax` returns the first index attaining the maximum,
which for the sorted group index is the least key among the maximisers. -/

/-- Distinct values of a categorical key in their natural ascending sort
order — the group index `df.groupby(key)` produces. -/
def groupKeys {ρ κ : Type} [LinearOrder κ] [DecidableEq κ] (rows : List ρ)
    (key : ρ → κ) : List κ :=
  ((rows.map key).dedup).insertionSort (· ≤ ·)

/-- Mean of a numeric column over one group; values are optional (`none` is a
missing cell) and the group mean of zero present values is `NaN` (`none`),
matching `df.groupby(key)[col].mean()`. -/
def groupMean {ρ κ : Type} [DecidableEq κ] (rows : List ρ) (key : ρ → κ)
    (f : ρ → Option ℚ) (g : κ) : Option ℚ :=
  let vs := (rows.filter fun r => decide (key r = g)).filterMap f
  if vs = [] then none else some (vs.sum / vs.length)

/-- The groups whose mean for the column is defined (non-`NaN`); only these
take part in the `idxmax` computation. -/
def definedGroups {ρ κ : Type} [LinearOrder κ] [DecidableEq κ] (rows : List ρ)
    (key : ρ → κ) (f : ρ → Option ℚ) : List κ :=
  (groupKeys rows key).filter fun g => (groupMean rows key f g).isSome

/-- First entry of the list attaining the maximal second component (the
semantics of `Series.idxmax` over an ordered index). -/
def firstMaxBy {κ : Type} : List (κ × ℚ) → Option (κ × ℚ)
  | [] => none
  | p :: rest =>
    some ((firstMaxBy rest).elim p fun q => if p.2 < q.2 then q else p)

/-- Lines 121-124: `avg_by_continent[col].idxmax()` — the group with the
maximal mean, ties resolved to the first group of the sorted index. -/
def maxMeanGroup {ρ κ : Type} [LinearOrder κ] [DecidableEq κ] (rows : List ρ)
    (key : ρ → κ) (f : ρ → Option ℚ) : Option κ :=
  (firstMaxBy ((definedGroups rows key f).map
    fun g => (g, (groupMean rows key f g).getD 0))).map Prod.fst

/-- The concrete grouping scenario of the spec: `X = [1,1,5,5]` grouped by
`G = ["a","a","b","b"]`, a row being a (key, value) pair. -/
def drinksExample : List (String × ℚ) := [("a", 1), ("a", 1), ("b", 5), ("b", 5)]

theorem firstMaxBy_eq_none {κ : Type} (l : List (κ × ℚ)) :
    firstMaxBy l = none ↔ l = [] := by
  cases l with
  | nil => simp [firstMaxBy]
  | cons a t => simp [firstMaxBy]

theorem firstMaxBy_mem {κ : Type} (l : List (κ × ℚ)) (p : κ × ℚ)
    (h : firstMaxBy l = some p) : p ∈ l := by
  induction l generalizing p with
  | nil => simp [firstMaxBy] at h
  | cons a t ih =>
    rw [firstMaxBy, Option.some_inj] at h
    cases ht : firstMaxBy t with
    | none =>
      rw [ht, Option.elim_none] at h
      simp [← h]
    | some q =>
      rw [ht, Option.elim_some] at h
      by_cases hlt : a.2 < q.2
      · rw [if_pos hlt] at h
        exact List.mem_cons_of_mem a (h ▸ ih q ht)
      · rw [if_neg hlt] at h
        simp [← h]

theorem firstMaxBy_le {κ : Type} (l : List (κ × ℚ)) (p : κ × ℚ)
    (h : firstMaxBy l = some p) : ∀ q ∈ l, q.2 ≤ p.2 := by
  induction l generalizing p with
  | nil => simp [firstMaxBy] at h
  | cons a t ih =>
    rw [firstMaxBy, Option.some_inj] at h
    intro q hq
    rcases List.mem_cons.mp hq with hqa | hqt
    · subst hqa
      cases ht : firstMaxBy t with
      | none => rw [ht, Option.elim_none] at h; rw [← h]
      | some m =>
        rw [ht, Option.elim_some] at h
        by_cases hlt : q.2 < m.2
        · rw [if_pos hlt] at h; rw [← h]; exact le_of_lt hlt
        · rw [if_neg hlt] at h; rw [← h]
    · cases ht : firstMaxBy t with
      | none => rw [firstMaxBy_eq_none] at ht; simp [ht] at hqt
      | some m =>
        rw [ht, Option.elim_some] at h
        have hqm : q.2 ≤ m.2 := ih m ht q hqt
        by_cases hlt : a.2 < m.2
        · rw [if_pos hlt] at h; rw [← h]; exact hqm
        · rw [if_neg hlt] at h; rw [← h]
          exact hqm.trans (not_lt.mp hlt)

theorem firstMaxBy_first {κ : Type} [Preorder κ] (l : List (κ × ℚ)) (p : κ × ℚ)
    (hsort : l.Pairwise fun x y => x.1 ≤ y.1) (h : firstMaxBy l = some p) :
    ∀ q ∈ l, q.2 = p.2 → p.1 ≤ q.1 := by
  induction l generalizing p with
  | nil => simp [firstMaxBy] at h
  | cons a t ih =>
    rw [List.pairwise_cons] at hsort
    rw [firstMaxBy, Option.some_inj] at h
    intro q hq hq2
    rcases List.mem_cons.mp hq with hqa | hqt
    · subst hqa
      cases ht : firstMaxBy t with
      | none => rw [ht, Option.elim_none] at h; rw [← h]
      | some m =>
        rw [ht, Option.elim_some] at h
        by_cases hlt : q.2 < m.2
        · rw [if_pos hlt] at h
          rw [← h] at hq2
          exact absurd hq2 (ne_of_lt hlt)
        · rw [if_neg hlt] at h; rw [← h]
    · cases ht : firstMaxBy t with
      | none => rw [firstMaxBy_eq_none] at ht; simp [ht] at hqt
      | some m =>
        rw [ht, Option.elim_some] at h
        by_cases hlt : a.2 < m.2
        · rw [if_pos hlt] at h
          subst h
          exact ih m hsort.2 ht q hqt hq2
        · rw [if_neg hlt] at h
          rw [← h]
          exact hsort.1 q hqt

theorem groupKeys_sorted {ρ κ : Type} [LinearOrder κ] [DecidableEq κ]
    (rows : List ρ) (key : ρ → κ) : (groupKeys rows key).Sorted (· ≤ ·) :=
  List.sorted_insertionSort _ _

theorem definedGroups_sublist {ρ κ : Type} [LinearOrder κ] [DecidableEq κ]
    (rows : List ρ) (key : ρ → κ) (f : ρ → Option ℚ) :
    (definedGroups rows key f).Sublist (groupKeys rows key) :=
  List.filter_sublist _

theorem mem_definedGroups {ρ κ : Type} [LinearOrder κ] [DecidableEq κ]
    (rows : List ρ) (key : ρ → κ) (f : ρ → Option ℚ) (g : κ) :
    g ∈ definedGroups rows key f ↔
      g ∈ groupKeys rows key ∧ (groupMean rows key f g).isSome := by
  simp [definedGroups, List.mem_filter]

/-- C5: `maxMeanGroup` reports a group of the key with a defined (non-`NaN`)
mean that is maximal among all groups with defined means, ties resolved to
the first group in the key's natural sort order; groups with no rows for the
column (mean `NaN`) never win; and on the concrete scenario `X = [1,1,5,5]`,
`G = ["a","a","b","b"]` the group means are `a ↦ 1`, `b ↦ 5` and the max-mean
group is `"b"`. -/
theorem max_mean_group_spec :
    (∀ (κ ρ : Type) [inst : LinearOrder κ] [inst2 : DecidableEq κ]
        (rows : List ρ) (key : ρ → κ) (f : ρ → Option ℚ) (g : κ),
        (maxMeanGroup rows key f = some g →
          g ∈ groupKeys rows key ∧
          ∃ m, groupMean rows key f g = some m ∧
            ∀ g' m', g' ∈ groupKeys rows key → groupMean rows key f g' = some m' →
              m' ≤ m ∧ (m' = m → g ≤ g'))
        ∧ (groupMean rows key f g = none → maxMeanGroup rows key f ≠ some g))
    ∧ groupMean drinksExample Prod.fst (fun r => some r.2) "a" = some 1
    ∧ groupMean drinksExample Prod.fst (fun r => some r.2) "b" = some 5
    ∧ maxMeanGroup drinksExample Prod.fst (fun r => some r.2) = some "b" := by
  have hmain : ∀ (κ ρ : Type) [inst : LinearOrder κ] [inst2 : DecidableEq κ]
      (rows : List ρ) (key : ρ → κ) (f : ρ → Option ℚ) (g : κ),
      maxMeanGroup rows key f = some g →
        g ∈ groupKeys rows key ∧
        ∃ m, groupMean rows key f g = some m ∧
          ∀ g' m', g' ∈ groupKeys rows key → groupMean rows key f g' = some m' →
            m' ≤ m ∧ (m' = m → g ≤ g') := by
    intro κ ρ inst inst2 rows key f g hmax
    rw [maxMeanGroup, Option.map_eq_some'] at hmax
    obtain ⟨p, hp, hpg⟩ := hmax
    have hpmem := firstMaxBy_mem _ _ hp
    rw [List.mem_map] at hpmem
    obtain ⟨g0, hg0, hg0p⟩ := hpmem
    have hg0g : g0 = g := by rw [← hpg, ← hg0p]
    subst hg0g
    have hgk : g0 ∈ groupKeys rows key ∧ (groupMean rows key f g0).isSome :=
      (mem_definedGroups rows key f g0).mp hg0
    obtain ⟨m, hm⟩ := Option.isSome_iff_exists.mp hgk.2
    refine ⟨hgk.1, m, hm, ?_⟩
    intro g' m' hg'k hg'm
    have hg'd : g' ∈ definedGroups rows key f :=
      (mem_definedGroups rows key f g').mpr ⟨hg'k, by simp [hg'm]⟩
    have hq : (g', m') ∈ (definedGroups rows key f).map
        (fun g => (g, (groupMean rows key f g).getD 0)) := by
      rw [List.mem_map]
      exact ⟨g', hg'd, by simp [hg'm]⟩
    have hpval : p.2 = m := by rw [← hg0p]; simp [hm]
    have hfst : p.1 = g0 := by rw [← hg0p]
    constructor
    · have := firstMaxBy_le _ _ hp (g', m') hq
      simpa [hpval] using this
    · intro hmm
      have hpair : ((definedGroups rows key f).map
          (fun g => (g, (groupMean rows key f g).getD 0))).Pairwise
          fun x y => x.1 ≤ y.1 := by
        refine List.Pairwise.map _ ?_
          ((groupKeys_sorted rows key).sublist (definedGroups_sublist rows key f))
        intro a b hab
        exact hab
      have := firstMaxBy_first _ _ hpair hp (g', m') hq (by simp [hpval, hmm])
      rwa [hfst] at this
  refine ⟨fun κ ρ inst inst2 rows key f g => ⟨hmain κ ρ rows key f g, ?_⟩, ?_, ?_, ?_⟩
  · intro hnone hmax
    obtain ⟨-, m, hm, -⟩ := hmain κ ρ rows key f g hmax
    rw [hnone] at hm
    exact Option.noConfusion hm
  · norm_num [groupMean, drinksExample, List.filter, List.filterMap]
    simp
  · norm_num [groupMean, drinksExample, List.filter, List.filterMap]
    simp
  · have hk : groupKeys drinksExample Prod.fst = ["a", "b"] := by
      simp [groupKeys, drinksExample, List.dedup, List.pwFilter,
        List.insertionSort, List.orderedInsert]
      decide
    have ha : groupMean drinksExample Prod.fst (fun r => some r.2) "a" = some 1 := by
      norm_num [groupMean, drinksExample, List.filter, List.filterMap]
      simp
    have hb : groupMean drinksExample Prod.fst (fun r => some r.2) "b" = some 5 := by
      norm_num [groupMean, drinksExample, List.filter, List.filterMap]
      simp
    rw [maxMeanGroup, definedGroups, hk]
    simp [List.filter, ha, hb, firstMaxBy]

/-- Helper: the group count of `g` is the key multiplicity in the mapped
key column. -/
theorem length_filter_key {ρ κ : Type} [DecidableEq κ] (rows : List ρ)
    (key : ρ → κ) (g : κ) :
    (rows.filter fun r => decide (key r = g)).length = (rows.map key).count g := by
  induction rows with
  | nil => simp
  | cons a t ih =>
    by_cases h : key a = g <;>
      simp [List.filter_cons, List.count_cons, h, ih]

/-- Helper: summing the multiplicities of the deduplicated values recovers
the length. -/
theorem sum_map_count_dedup {κ : Type} [DecidableEq κ] (l : List κ) :
    (l.dedup.map fun g => l.count g).sum = l.length := by
  have h1 : l.dedup.toFinset.sum (fun g => l.count g) =
      (l.dedup.map fun g => l.count g).sum :=
    List.sum_toFinset _ (List.nodup_dedup l)
  have hfs : l.dedup.toFinset = l.toFinset := by
    ext a
    simp [List.mem_toFinset, List.mem_dedup]
  rw [← h1, hfs, List.sum_toFinset_count_eq_length]

/-- C6: for every table and categorical key, the per-group row counts
(`df[key].value_counts()`, lines 113-116) sum to the table's row count. -/
theorem group_counts_sum :
    ∀ (κ ρ : Type) [inst : LinearOrder κ] [inst2 : DecidableEq κ]
      (rows : List ρ) (key : ρ → κ),
      ((groupKeys rows key).map
        fun g => (rows.filter fun r => decide (key r = g)).length).sum
        = rows.length := by
  intro κ ρ inst inst2 rows key
  have hperm : (groupKeys rows key).Perm ((rows.map key).dedup) :=
    List.perm_insertionSort _ _
  have h1 : ((groupKeys rows key).map
      fun g => (rows.filter fun r => decide (key r = g)).length).sum
      = (((rows.map key).dedup).map
        fun g => (rows.filter fun r => decide (key r = g)).length).sum :=
    (hperm.map _).sum_eq
  rw [h1]
  have h2 : (((rows.map key).dedup).map
      fun g => (rows.filter fun r => decide (key r = g)).length).sum
      = (((rows.map key).dedup).map fun g => (rows.map key).count g).sum := by
    congr 1
    exact List.map_congr_left fun g _ => length_filter_key rows key g
  rw [h2, sum_map_count_dedup, List.length_map]

/-! ## Top/bottom consumers (`top_consumers_analysis`, lines 149-175 of
`exploratory_analysis.py`).

The bottom-5 report first filters to strictly positive values
(`non_zero = df[df[alcohol_type] > 0]`, line 166) and is printed ONLY when at
least five rows survive the filter (`if len(non_zero) >= 5:`, line 167);
with fewer qualifying rows the whole bottom-5 block is skipped, embedded here
as `none`.  `nsmallest` sorts ascending, stably. -/

/-- Lines 166-171: the bottom-K block; `none` when the report is skipped
because fewer than `k` rows have a strictly positive value. -/
def bottom_consumers {ρ : Type} (rows : List ρ) (f : ρ → ℚ) (k : ℕ) :
    Option (List ρ) :=
  let nz := rows.filter fun r => decide (0 < f r)
  if k ≤ nz.length then
    some ((nz.insertionSort fun a b => f a ≤ f b).take k)
  else none

/-- Line 174: `zero_count = (df[alcohol_type] == 0).sum()`. -/
def zero_count {ρ : Type} (rows : List ρ) (f : ρ → ℚ) : ℕ :=
  (rows.filter fun r => decide (f r = 0)).length

/-- C7 (counterexample): with column values `[0, 1]` and `K = 5` only one row
qualifies after the zero filter, and the code skips the bottom-K output
entirely (`none`) instead of returning the qualifying row as the claim
states. -/
theorem c7_skipped_counterexample :
    bottom_consumers [(0 : ℚ), 1] id 5 = none ∧
      bottom_consumers [(0 : ℚ), 1] id 5 ≠ some [1] := by
  have h : bottom_consumers [(0 : ℚ), 1] id 5 = none := by
    norm_num [bottom_consumers, List.filter]
  exact ⟨h, by rw [h]; exact fun hc => Option.noConfusion hc⟩

/-- C7 (amended): the bottom-K output is produced iff at least `k` rows have
strictly positive value — otherwise the whole block is omitted (no error, but
the qualifying rows are not returned either); when produced it has exactly
`k` rows, contains no zero (or negative) values, and is sorted ascending by
value; and the count of rows with value exactly `0` is the zero-value
multiplicity of the column. -/
theorem bottom_consumers_spec :
    ∀ (ρ : Type) (rows : List ρ) (f : ρ → ℚ) (k : ℕ),
      (bottom_consumers rows f k = none ↔
        (rows.filter fun r => decide (0 < f r)).length < k)
      ∧ (∀ l, bottom_consumers rows f k = some l →
          (∀ r ∈ l, 0 < f r) ∧ l.Pairwise (fun a b => f a ≤ f b) ∧ l.length = k)
      ∧ zero_count rows f = (rows.map f).count 0 := by
  intro ρ rows f k
  refine ⟨?_, ?_, ?_⟩
  · rw [bottom_consumers]
    by_cases hk : k ≤ (rows.filter fun r => decide (0 < f r)).length
    · simp [if_pos hk, not_lt.mpr hk]
    · simp [if_neg hk, not_le.mp hk]
  · intro l hl
    rw [bottom_consumers] at hl
    by_cases hk : k ≤ (rows.filter fun r => decide (0 < f r)).length
    · rw [if_pos hk, Option.some_inj] at hl
      haveI htot : IsTotal ρ fun a b => f a ≤ f b := ⟨fun a b => le_total _ _⟩
      haveI htr : IsTrans ρ fun a b => f a ≤ f b :=
        ⟨fun _ _ _ hab hbc => le_trans hab hbc⟩
      refine ⟨?_, ?_, ?_⟩
      · intro r hr
        have hr2 : r ∈ (rows.filter fun r => decide (0 < f r)).insertionSort
            fun a b => f a ≤ f b :=
          List.take_subset _ _ (hl ▸ hr)
        rw [List.mem_insertionSort, List.mem_filter] at hr2
        exact of_decide_eq_true hr2.2
      · rw [← hl]
        exact ((List.sorted_insertionSort _ _).sublist (List.take_sublist _ _))
      · rw [← hl, List.length_take, List.length_insertionSort]
        exact min_eq_left hk
    · rw [if_neg hk] at hl
      exact Option.noConfusion hl
  · exact length_filter_key rows f 0

/-! ## Ranking of correlation pairs (lines 139-147 of
`exploratory_analysis.py`).

The code builds one `(columnA, columnB, coefficient)` triple per index pair
`i < j` of the column list (reading the coefficient from the correlation
matrix) and sorts them with Python's stable `list.sort(key=abs coefficient,
reverse=True)`.  A stable descending sort is the unique permutation that is
sorted by the lexicographic order "greater absolute coefficient first, then
smaller original position first" on the position-tagged list, which is how it
is embedded here (`pairRank` over `List.enum`).  The coefficient matrix is a
parameter `c`, as in the code, where it is whatever `df.corr()` produced. -/

/-- Index pairs `(i, j)` with `i < j < n`, in the order the double loop at
lines 140-143 visits them. -/
def pairIdx (n : ℕ) : List (ℕ × ℕ) :=
  (List.range n).flatMap fun i => (List.range n).filterMap fun j =>
    if i < j then some (i, j) else none

/-- Lines 140-143: the unsorted `corr_pairs` list of
`(numerical_cols[i], numerical_cols[j], correlation_matrix.iloc[i, j])`. -/
def corrTriples {β : Type} (names : List String) (c : ℕ → ℕ → β) :
    List (String × String × β) :=
  (pairIdx names.length).map fun p => (names.getD p.1 "", names.getD p.2 "", c p.1 p.2)

/-- Ranking order of position-tagged triples: strictly larger absolute
coefficient first, ties resolved by original position (stability of Python's
sort). -/
def pairRank {β : Type} [LinearOrderedField β] :
    (ℕ × String × String × β) → (ℕ × String × String × β) → Prop :=
  fun p q => |q.2.2.2| < |p.2.2.2| ∨ (|p.2.2.2| = |q.2.2.2| ∧ p.1 ≤ q.1)

instance pairRankDecidable {β : Type} [LinearOrderedField β] :
    DecidableRel (@pairRank β _) := fun p q =>
  decidable_of_iff (|q.2.2.2| < |p.2.2.2| ∨ (|p.2.2.2| = |q.2.2.2| ∧ p.1 ≤ q.1))
    Iff.rfl

instance pairRankTotal {β : Type} [LinearOrderedField β] :
    IsTotal (ℕ × String × String × β) (@pairRank β _) := by
  constructor
  intro p q
  rcases lt_trichotomy |p.2.2.2| |q.2.2.2| with h | h | h
  · exact Or.inr (Or.inl h)
  · rcases Nat.le_total p.1 q.1 with hn | hn
    · exact Or.inl (Or.inr ⟨h, hn⟩)
    · exact Or.inr (Or.inr ⟨h.symm, hn⟩)
  · exact Or.inl (Or.inl h)

instance pairRankTrans {β : Type} [LinearOrderedField β] :
    IsTrans (ℕ × String × String × β) (@pairRank β _) := by
  constructor
  rintro p q r (hpq | ⟨hpq, hpq'⟩) (hqr | ⟨hqr, hqr'⟩)
  · exact Or.inl (hqr.trans hpq)
  · exact Or.inl (hqr ▸ hpq)
  · exact Or.inl (hqr.trans_eq hpq.symm)
  · exact Or.inr ⟨hpq.trans hqr, hpq'.trans hqr'⟩

/-- The ranked list, position-tagged (before the projection that drops the
positions). -/
def rankedEnum {β : Type} [LinearOrderedField β] (names : List String)
    (c : ℕ → ℕ → β) : List (ℕ × String × String × β) :=
  (corrTriples names c).enum.insertionSort pairRank

/-- Lines 145-147: `corr_pairs` after the stable descending sort by absolute
coefficient. -/
def rankedPairs {β : Type} [LinearOrderedField β] (names : List String)
    (c : ℕ → ℕ → β) : List (String × String × β) :=
  (rankedEnum names c).map Prod.snd

theorem mem_pairIdx (n : ℕ) (p : ℕ × ℕ) :
    p ∈ pairIdx n ↔ p.1 < p.2 ∧ p.2 < n := by
  obtain ⟨i, j⟩ := p
  simp only [pairIdx, List.mem_flatMap, List.mem_filterMap, List.mem_range]
  constructor
  · rintro ⟨a, ha, b, hb, hsome⟩
    rw [Option.ite_none_right_eq_some, Option.some_inj] at hsome
    obtain ⟨hab, heq⟩ := hsome
    obtain ⟨rfl, rfl⟩ := Prod.mk.injEq .. ▸ heq
    exact ⟨hab, hb⟩
  · rintro ⟨hij, hjn⟩
    exact ⟨i, lt_trans hij hjn, j, hjn, by rw [if_pos hij]⟩

theorem nodup_pairIdx (n : ℕ) : (pairIdx n).Nodup := by
  rw [pairIdx, List.nodup_flatMap]
  constructor
  · intro i hi
    refine List.Nodup.filterMap ?_ (List.nodup_range n)
    intro a a' b hb hb'
    rw [Option.mem_def, Option.ite_none_right_eq_some, Option.some_inj] at hb hb'
    rw [← hb.2, Prod.mk.injEq] at hb'
    exact (hb'.2.2).symm
  · refine List.Pairwise.imp ?_ (List.pairwise_lt_range n)
    intro i i' hii' p hp hp'
    rw [List.mem_filterMap] at hp hp'
    obtain ⟨j, -, hj⟩ := hp
    obtain ⟨j', -, hj'⟩ := hp'
    rw [Option.ite_none_right_eq_some, Option.some_inj] at hj hj'
    rw [← hj.2, Prod.mk.injEq] at hj'
    exact absurd hj'.2.1 (ne_of_gt hii')

theorem mem_corrTriples {β : Type} (names : List String) (c : ℕ → ℕ → β)
    (t : String × String × β) :
    t ∈ corrTriples names c ↔
      ∃ i j, i < j ∧ j < names.length ∧
        t = (names.getD i "", names.getD j "", c i j) := by
  rw [corrTriples, List.mem_map]
  constructor
  · rintro ⟨⟨i, j⟩, hmem, rfl⟩
    rw [mem_pairIdx] at hmem
    exact ⟨i, j, hmem.1, hmem.2, rfl⟩
  · rintro ⟨i, j, hij, hjn, rfl⟩
    exact ⟨(i, j), (mem_pairIdx _ _).mpr ⟨hij, hjn⟩, rfl⟩

theorem corrTriples_proj_nodup {β : Type} (names : List String) (c : ℕ → ℕ → β)
    (hnd : names.Nodup) :
    ((corrTriples names c).map fun t => (t.1, t.2.1)).Nodup := by
  rw [corrTriples, List.map_map]
  refine List.Nodup.map_on ?_ (nodup_pairIdx _)
  rintro ⟨i, j⟩ hij ⟨i', j'⟩ hij' heq
  rw [mem_pairIdx] at hij hij'
  simp only [Function.comp, Prod.mk.injEq] at heq
  have hi : i < names.length := lt_trans hij.1 hij.2
  have hi' : i' < names.length := lt_trans hij'.1 hij'.2
  rw [List.getD_eq_getElem names "" hi, List.getD_eq_getElem names "" hi',
    List.getD_eq_getElem names "" hij.2, List.getD_eq_getElem names "" hij'.2]
    at heq
  have h1 : i = i' := (List.Nodup.getElem_inj_iff hnd).mp heq.1
  have h2 : j = j' := (List.Nodup.getElem_inj_iff hnd).mp heq.2
  rw [h1, h2]

/-- Helper (the defined-coefficient case): for a list of at least two
distinct numeric column names and any totally ordered (NaN-free) coefficient
matrix, the ranked output contains exactly one triple per unordered pair of
distinct columns, it is nonempty, it is sorted by weakly descending absolute
coefficient, and ties keep the original generation order.  The NaN case,
where the coefficients are only partially ordered and Python's sort does not
produce this order, is modeled separately by `pySortDesc` below. -/
theorem ranked_pairs_spec (β : Type) [inst : LinearOrderedField β]
    (names : List String) (c : ℕ → ℕ → β)
    (h2 : 2 ≤ names.length) (hnd : names.Nodup) :
    (∀ t : String × String × β, t ∈ rankedPairs names c ↔
      ∃ i j, i < j ∧ j < names.length ∧
        t = (names.getD i "", names.getD j "", c i j))
    ∧ ((rankedPairs names c).map fun t => (t.1, t.2.1)).Nodup
    ∧ rankedPairs names c ≠ []
    ∧ (rankedPairs names c).Pairwise (fun t u => |u.2.2| ≤ |t.2.2|)
    ∧ (rankedEnum names c).Pairwise
        (fun p q => |p.2.2.2| = |q.2.2.2| → p.1 ≤ q.1)
    ∧ rankedPairs names c = (rankedEnum names c).map Prod.snd
    ∧ (rankedEnum names c).Perm (corrTriples names c).enum := by
  have hperm : (rankedEnum names c).Perm (corrTriples names c).enum :=
    List.perm_insertionSort _ _
  have hpermP : (rankedPairs names c).Perm (corrTriples names c) := by
    have := hperm.map Prod.snd
    rwa [List.enum_map_snd] at this
  have hsorted : (rankedEnum names c).Sorted (@pairRank β _) :=
    List.sorted_insertionSort _ _
  refine ⟨?_, ?_, ?_, ?_, ?_, rfl, hperm⟩
  · intro t
    rw [hpermP.mem_iff, mem_corrTriples]
  · exact (corrTriples_proj_nodup names c hnd).perm (hpermP.map _).symm
  · intro hnil
    have h01 : (names.getD 0 "", names.getD 1 "", c 0 1) ∈ rankedPairs names c := by
      rw [hpermP.mem_iff, mem_corrTriples]
      exact ⟨0, 1, Nat.zero_lt_one, h2, rfl⟩
    rw [hnil] at h01
    exact List.not_mem_nil _ h01
  · rw [rankedPairs]
    refine List.Pairwise.map _ ?_ hsorted
    rintro p q (h | ⟨h, -⟩)
    · exact le_of_lt h
    · exact le_of_eq h.symm
  · refine List.Pairwise.imp ?_ hsorted
    rintro p q (h | ⟨h, hn⟩)
    · intro heq
      exact absurd heq (ne_of_gt (heq ▸ h)).symm
    · intro heq
      exact hn

/-! ### The NaN case, and C3

pandas gives a `NaN` coefficient to every pair containing a constant column,
and Python's `corr_pairs.sort(key=lambda x: abs(x[2]), reverse=True)` (line
145) then compares keys with float `<`, for which every comparison against a
`NaN` is false.  CPython's `list.sort` with `reverse=True` reverses the list,
sorts ascending, and reverses again; for fewer than 64 elements (at most 4
columns and 6 pairs in these scripts) the ascending sort is one `count_run`
— take the maximal weakly ascending (or strictly descending, then reverse)
initial run — followed by `binarysort`, a binary-insertion of each remaining
element into the sorted prefix.  That algorithm is embedded below over an
arbitrary boolean comparator, and instantiated with the key comparison
`absKeyLt` whose `NaN` (`none`) comparisons are all false. -/

/-- CPython `binarysort`'s binary search: the insertion index for `pivot`
within `xs[l:r]`, moving `r` down when `pivot < xs[mid]` and `l` past `mid`
otherwise. -/
def pyBisect {α : Type} (lt : α → α → Bool) (xs : List α) (pivot : α)
    (l r : ℕ) : ℕ :=
  if h : l < r then
    if lt pivot (xs.getD (l + (r - l) / 2) pivot) then
      pyBisect lt xs pivot l (l + (r - l) / 2)
    else
      pyBisect lt xs pivot (l + (r - l) / 2 + 1) r
  else l
termination_by r - l
decreasing_by
all_goals omega

/-- One binary insertion into the sorted prefix. -/
def pyBinInsert {α : Type} (lt : α → α → Bool) (sorted : List α) (pivot : α) :
    List α :=
  let pos := pyBisect lt sorted pivot 0 sorted.length
  sorted.take pos ++ pivot :: sorted.drop pos

/-- CPython `binarysort`: extend the initial run by binary-inserting each
remaining element. -/
def pyBinarysort {α : Type} (lt : α → α → Bool) (run rest : List α) : List α :=
  rest.foldl (pyBinInsert lt) run

/-- CPython `count_run`, ascending case: the maximal prefix with
`not (next < prev)` at each step, and the remainder. -/
def takeRunAsc {α : Type} (lt : α → α → Bool) : α → List α → List α × List α
  | _, [] => ([], [])
  | prev, x :: xs =>
    if lt x prev then ([], x :: xs)
    else
      let p := takeRunAsc lt x xs
      (x :: p.1, p.2)

/-- CPython `count_run`, strictly descending case: the maximal prefix with
`next < prev` at each step, and the remainder. -/
def takeRunDesc {α : Type} (lt : α → α → Bool) : α → List α → List α × List α
  | _, [] => ([], [])
  | prev, x :: xs =>
    if lt x prev then
      let p := takeRunDesc lt x xs
      (x :: p.1, p.2)
    else ([], x :: xs)

/-- CPython's ascending Timsort for fewer than 64 elements: one `count_run`
(a strictly descending initial run is reversed) and a `binarysort` of the
remainder into it. -/
def pySortAsc {α : Type} (lt : α → α → Bool) : List α → List α
  | [] => []
  | [a] => [a]
  | a :: b :: rest =>
    if lt b a then
      let p := takeRunDesc lt b rest
      pyBinarysort lt (a :: b :: p.1).reverse p.2
    else
      let p := takeRunAsc lt b rest
      pyBinarysort lt (a :: b :: p.1) p.2

/-- CPython `list.sort(key=..., reverse=True)` (for fewer than 64 elements):
reverse, sort ascending, reverse — which is what keeps the sort stable. -/
def pySortDesc {α : Type} (lt : α → α → Bool) (xs : List α) : List α :=
  (pySortAsc lt xs.reverse).reverse

/-- The comparison Python's sort performs between two triples under
`key=lambda x: abs(x[2])`: float `<` of the absolute coefficients, false
whenever either coefficient is `NaN` (`none`). -/
noncomputable def absKeyLt (t u : String × String × Option ℝ) : Bool :=
  match t.2.2, u.2.2 with
  | some x, some y => decide (|x| < |y|)
  | _, _ => false

/-- Lines 140-143 over an actual table: the triples
`(cols[i], cols[j], corr(col i, col j))` for `i < j`, with the genuine
(possibly `NaN`) Pearson coefficients. -/
noncomputable def corrTriplesTable (cols : List (String × List ℚ)) :
    List (String × String × Option ℝ) :=
  (pairIdx cols.length).map fun p =>
    ((cols.getD p.1 ("", [])).1, (cols.getD p.2 ("", [])).1,
      corr (cols.getD p.1 ("", [])).2 (cols.getD p.2 ("", [])).2)

/-- Lines 140-147 over an actual table: the generated triples after Python's
descending sort by absolute coefficient. -/
noncomputable def rankedPairsPy (cols : List (String × List ℚ)) :
    List (String × String × Option ℝ) :=
  pySortDesc absKeyLt (corrTriplesTable cols)

/-- A 3-row table with a constant column `A` between three non-constant
columns: the pairs containing `A` get `NaN` coefficients. -/
def nanCols : List (String × List ℚ) :=
  [("B", [0, 2, 1]), ("A", [1, 1, 1]), ("C", [0, 1, 2]), ("D", [2, 1, 0])]

/-- The coefficient matrix of a table as a real number: the value of the
defined coefficient (`getD` only ever supplies its junk `0` for a `NaN`
entry, which the amended claim's hypothesis rules out). -/
noncomputable def corrVal (cols : List (String × List ℚ)) (i j : ℕ) : ℝ :=
  (corr (cols.getD i ("", [])).2 (cols.getD j ("", [])).2).getD 0

/-- The concrete all-defined table of the spec's correlation scenario:
columns `A = [1,2,3,4]` and `B = [4,3,2,1]`. -/
def abCols : List (String × List ℚ) := [("A", [1, 2, 3, 4]), ("B", [4, 3, 2, 1])]

/-- Helper: `corr` is `NaN` (`none`) whenever the left column has zero
variance. -/
theorem corr_none_of_left (xs ys : List ℚ) (h : varSum xs = 0) :
    corr xs ys = none := by
  rw [corr, if_pos (by rw [h, zero_mul])]

/-- C3 (counterexample): on the 3-row table `nanCols`, whose column `A` is
constant, the coefficients of the pairs containing `A` are `NaN`; all key
comparisons Python's sort makes come out false, so the traced sort returns
the triples in generation order — and that output is not sorted by
descending absolute coefficient value, not even among the defined
coefficients: the triple `("B", "D", -0.5)` precedes `("C", "D", -1.0)`
although `|-0.5| < |-1.0|`. -/
theorem c3_nan_counterexample :
    rankedPairsPy nanCols =
      [("B", "A", none), ("B", "C", some (1 / 2)), ("B", "D", some (-(1 / 2))),
       ("A", "C", none), ("A", "D", none), ("C", "D", some (-1))]
    ∧ ¬ (rankedPairsPy nanCols).Pairwise (fun t u =>
        ∀ x y, t.2.2 = some x → u.2.2 = some y → |y| ≤ |x|) := by
  have hvA : varSum [(1 : ℚ), 1, 1] = 0 := by
    norm_num [varSum, covSum, mean, Finset.sum_range_succ, List.getD]
  have hBA : corr [0, 2, 1] [1, 1, 1] = none := corr_none_of_right _ _ hvA
  have hAC : corr [1, 1, 1] [0, 1, 2] = none := corr_none_of_left _ _ hvA
  have hAD : corr [1, 1, 1] [2, 1, 0] = none := corr_none_of_left _ _ hvA
  have hBC : corr [0, 2, 1] [0, 1, 2] = some (1 / 2) := by
    rw [corr_eval _ _ 2
      (by norm_num [varSum, covSum, mean, Finset.sum_range_succ, List.getD])
      (by norm_num)]
    have h1 : covSum [0, 2, 1] [0, 1, 2] = 1 := by
      norm_num [covSum, mean, Finset.sum_range_succ, List.getD]
    rw [h1]
    norm_num
  have hBD : corr [0, 2, 1] [2, 1, 0] = some (-(1 / 2)) := by
    rw [corr_eval _ _ 2
      (by norm_num [varSum, covSum, mean, Finset.sum_range_succ, List.getD])
      (by norm_num)]
    have h1 : covSum [0, 2, 1] [2, 1, 0] = -1 := by
      norm_num [covSum, mean, Finset.sum_range_succ, List.getD]
    rw [h1]
    norm_num
  have hCD : corr [0, 1, 2] [2, 1, 0] = some (-1) := by
    rw [corr_eval _ _ 2
      (by norm_num [varSum, covSum, mean, Finset.sum_range_succ, List.getD])
      (by norm_num)]
    have h1 : covSum [0, 1, 2] [2, 1, 0] = -2 := by
      norm_num [covSum, mean, Finset.sum_range_succ, List.getD]
    rw [h1]
    norm_num
  have hpi : pairIdx 4 = [(0, 1), (0, 2), (0, 3), (1, 2), (1, 3), (2, 3)] := by
    decide
  have hct : corrTriplesTable nanCols =
      [("B", "A", none), ("B", "C", some (1 / 2)), ("B", "D", some (-(1 / 2))),
       ("A", "C", none), ("A", "D", none), ("C", "D", some (-1))] := by
    rw [corrTriplesTable, show nanCols.length = 4 from rfl, hpi]
    simp only [List.map_cons, List.map_nil, nanCols, List.getD]
    norm_num [hBA, hAC, hAD, hBC, hBD, hCD]
  have c4 : absKeyLt ("B", "C", some ((1 : ℝ) / 2)) ("B", "D", some (-(1 / 2))) =
      false := by
    simp only [absKeyLt, decide_eq_false_iff_not, not_lt, abs_neg, le_refl]
  have hout : rankedPairsPy nanCols =
      [("B", "A", none), ("B", "C", some (1 / 2)), ("B", "D", some (-(1 / 2))),
       ("A", "C", none), ("A", "D", none), ("C", "D", some (-1))] := by
    rw [rankedPairsPy, hct, pySortDesc]
    simp only [List.reverse_cons, List.reverse_nil, List.nil_append,
      List.cons_append]
    rw [pySortAsc]
    simp only [show absKeyLt ("A", "D", none) ("C", "D", some (-(1 : ℝ))) = false
        from rfl, Bool.false_eq_true, if_false]
    simp only [takeRunAsc,
      show absKeyLt ("A", "C", none) ("A", "D", (none : Option ℝ)) = false from rfl,
      show absKeyLt ("B", "D", some (-(1 / 2) : ℝ)) ("A", "C", none) = false
        from rfl,
      c4,
      show absKeyLt ("B", "A", none) ("B", "C", some ((1 : ℝ) / 2)) = false
        from rfl,
      Bool.false_eq_true, if_false]
    simp [pyBinarysort]
  refine ⟨hout, ?_⟩
  intro h
  rw [hout] at h
  have h1 := (List.pairwise_cons.mp h).2
  have h2 := (List.pairwise_cons.mp h1).2
  have h3 := (List.pairwise_cons.mp h2).1
  have hR := h3 ("C", "D", some (-1)) (by simp)
  have hcmp := hR (-(1 / 2)) (-1) rfl rfl
  rw [abs_neg, abs_neg,
    show |(1 : ℝ) / 2| = 1 / 2 from abs_of_nonneg (by norm_num)] at hcmp
  norm_num at hcmp

/-- C3 (amended): for every table and every list of at least two distinct
numeric columns all of whose pairwise Pearson coefficients are defined (no
selected column is constant, so no coefficient is `NaN`), the ranked output
contains exactly one triple per unordered pair of distinct columns, it is
nonempty, sorted by weakly descending absolute coefficient value, and ties
keep the original column-list order of the pairs. -/
theorem ranked_corr_pairs_spec (cols : List (String × List ℚ))
    (h2 : 2 ≤ cols.length) (hnd : (cols.map Prod.fst).Nodup)
    (hdef : ∀ i j, i < j → j < cols.length →
      (corr (cols.getD i ("", [])).2 (cols.getD j ("", [])).2).isSome) :
    (∀ i j, i < j → j < cols.length →
      corr (cols.getD i ("", [])).2 (cols.getD j ("", [])).2
        = some (corrVal cols i j))
    ∧ (∀ t, t ∈ rankedPairs (cols.map Prod.fst) (corrVal cols) ↔
        ∃ i j, i < j ∧ j < cols.length ∧
          t = ((cols.map Prod.fst).getD i "", (cols.map Prod.fst).getD j "",
            corrVal cols i j))
    ∧ ((rankedPairs (cols.map Prod.fst) (corrVal cols)).map
        fun t => (t.1, t.2.1)).Nodup
    ∧ rankedPairs (cols.map Prod.fst) (corrVal cols) ≠ []
    ∧ (rankedPairs (cols.map Prod.fst) (corrVal cols)).Pairwise
        (fun t u => |u.2.2| ≤ |t.2.2|)
    ∧ (rankedEnum (cols.map Prod.fst) (corrVal cols)).Pairwise
        (fun p q => |p.2.2.2| = |q.2.2.2| → p.1 ≤ q.1)
    ∧ rankedPairs (cols.map Prod.fst) (corrVal cols)
        = (rankedEnum (cols.map Prod.fst) (corrVal cols)).map Prod.snd
    ∧ (rankedEnum (cols.map Prod.fst) (corrVal cols)).Perm
        (corrTriples (cols.map Prod.fst) (corrVal cols)).enum := by
  have hlen : (cols.map Prod.fst).length = cols.length :=
    List.length_map cols Prod.fst
  have main := ranked_pairs_spec ℝ (cols.map Prod.fst) (corrVal cols)
    (by rw [hlen]; exact h2) hnd
  rw [hlen] at main
  obtain ⟨hm, hn, hne, hp, ht, heq, hq⟩ := main
  refine ⟨?_, hm, hn, hne, hp, ht, heq, hq⟩
  intro i j hij hjn
  have hs := hdef i j hij hjn
  cases hcase : corr (cols.getD i ("", [])).2 (cols.getD j ("", [])).2 with
  | none => rw [hcase] at hs; simp at hs
  | some a =>
    rw [corrVal, hcase]
    rfl

/-- C3 (witness): the amended specification instantiated at the all-defined
two-column table `A = [1,2,3,4]`, `B = [4,3,2,1]` (its one coefficient is
the defined value `-1`). -/
theorem ranked_corr_pairs_witness :
    (∀ i j, i < j → j < abCols.length →
      corr (abCols.getD i ("", [])).2 (abCols.getD j ("", [])).2
        = some (corrVal abCols i j))
    ∧ (∀ t, t ∈ rankedPairs (abCols.map Prod.fst) (corrVal abCols) ↔
        ∃ i j, i < j ∧ j < abCols.length ∧
          t = ((abCols.map Prod.fst).getD i "", (abCols.map Prod.fst).getD j "",
            corrVal abCols i j))
    ∧ ((rankedPairs (abCols.map Prod.fst) (corrVal abCols)).map
        fun t => (t.1, t.2.1)).Nodup
    ∧ rankedPairs (abCols.map Prod.fst) (corrVal abCols) ≠ []
    ∧ (rankedPairs (abCols.map Prod.fst) (corrVal abCols)).Pairwise
        (fun t u => |u.2.2| ≤ |t.2.2|)
    ∧ (rankedEnum (abCols.map Prod.fst) (corrVal abCols)).Pairwise
        (fun p q => |p.2.2.2| = |q.2.2.2| → p.1 ≤ q.1)
    ∧ rankedPairs (abCols.map Prod.fst) (corrVal abCols)
        = (rankedEnum (abCols.map Prod.fst) (corrVal abCols)).map Prod.snd
    ∧ (rankedEnum (abCols.map Prod.fst) (corrVal abCols)).Perm
        (corrTriples (abCols.map Prod.fst) (corrVal abCols)).enum :=
  ranked_corr_pairs_spec abCols (by norm_num [abCols]) (by simp [abCols])
    (by
      intro i j hij hjn
      have hj2 : j < 2 := by simpa [abCols] using hjn
      have hi0 : i = 0 := by omega
      have hj1 : j = 1 := by omega
      subst hi0
      subst hj1
      simp only [abCols, List.getD]
      norm_num [corr_neg_one])

/-! ## Summarizer (`descriptive_statistics`, lines 80-98 of
`exploratory_analysis.py`).

The function prints `df[numerical_cols].describe()` plus variance, standard
deviation, skewness, kurtosis and range per column.  None of these raises on
a column with zero (non-null) values: pandas/scipy return `NaN` for every
undefined statistic (`count` is `0`), embedded as `none` fields.  Variance
and standard deviation use the pandas default `ddof = 1` (`NaN` for fewer
than two values); skewness and kurtosis use scipy's biased population
moments (`NaN` when the second central moment is zero); kurtosis is the
excess (Fisher) kurtosis. -/

/-- Central moment `m_k = Σ (xᵢ - x̄)^k / n` (scipy's biased convention). -/
def moment (xs : List ℚ) (k : ℕ) : ℚ :=
  (∑ i ∈ Finset.range xs.length, (xs.getD i 0 - mean xs) ^ k) / xs.length

/-- All statistics `descriptive_statistics` reports for one numeric column;
`none` is pandas/scipy `NaN`. -/
structure SummaryRecord where
  countV : ℕ
  meanV : Option ℚ
  stdV : Option ℝ
  minV : Option ℚ
  q25V : Option ℚ
  medianV : Option ℚ
  q75V : Option ℚ
  maxV : Option ℚ
  varianceV : Option ℚ
  skewV : Option ℝ
  kurtV : Option ℚ
  rangeV : Option ℚ

/-- The summary of one column, as lines 85-98 compute it. -/
noncomputable def summaryRecord (xs : List ℚ) : SummaryRecord :=
  ⟨xs.length,
   if xs.length = 0 then none else some (mean xs),
   if xs.length ≤ 1 then none
     else some (Real.sqrt ((varSum xs / ((xs.length : ℚ) - 1) : ℚ) : ℝ)),
   (sortQ xs).head?,
   if xs.length = 0 then none else some (quantile xs (1 / 4)),
   if xs.length = 0 then none else some (quantile xs (1 / 2)),
   if xs.length = 0 then none else some (quantile xs (3 / 4)),
   (sortQ xs).getLast?,
   if xs.length ≤ 1 then none else some (varSum xs / ((xs.length : ℚ) - 1)),
   if moment xs 2 = 0 then none
     else some ((moment xs 3 : ℝ) / Real.sqrt ((moment xs 2 : ℚ) : ℝ) ^ 3),
   if moment xs 2 = 0 then none else some (moment xs 4 / moment xs 2 ^ 2 - 3),
   Option.map₂ (fun hi lo => hi - lo) (sortQ xs).getLast? (sortQ xs).head?⟩

/-- Lines 85-98 loop over the designated numeric columns and report one
summary per column, unconditionally. -/
noncomputable def descriptive_statistics (cols : List (List ℚ)) : List SummaryRecord :=
  cols.map summaryRecord

/-- C8 (counterexample): on a designated numeric column with zero values the
code does not fail — it produces a `SummaryRecord` whose count is `0` and
whose statistics are all `NaN` (`none`). -/
theorem c8_empty_column_counterexample :
    descriptive_statistics [[]] = [summaryRecord []] ∧
      summaryRecord [] =
        ⟨0, none, none, none, none, none, none, none, none, none, none, none⟩ := by
  refine ⟨rfl, ?_⟩
  simp [summaryRecord, moment, sortQ, List.insertionSort]

/-- C8 (amended): the Summarizer never fails: it produces exactly one
`SummaryRecord` per designated numeric column, also when a column has zero
non-null values — for such a column the count is `0` and the statistics are
`NaN` (`none`) rather than an error. -/
theorem descriptive_statistics_total :
    (∀ cols : List (List ℚ), (descriptive_statistics cols).length = cols.length)
    ∧ (∀ (cols : List (List ℚ)) (i : ℕ), i < cols.length →
        (descriptive_statistics cols).getD i (summaryRecord []) =
          summaryRecord (cols.getD i []))
    ∧ (summaryRecord []).countV = 0 ∧ (summaryRecord []).meanV = none := by
  refine ⟨?_, ?_, rfl, by simp [summaryRecord]⟩
  · intro cols
    exact List.length_map cols summaryRecord
  · intro cols i hi
    have hi' : i < (descriptive_statistics cols).length := by
      rw [descriptive_statistics, List.length_map]
      exact hi
    rw [List.getD_eq_getElem _ _ hi', List.getD_eq_getElem _ _ hi]
    exact List.getElem_map summaryRecord

/-! ## Exit behaviour (`main`, lines 333-360 of `exploratory_analysis.py`,
and `FlightDataAnalyzer.load_data` / `run_complete_analysis`, lines 28-39 and
394-401 of `flight_data_analysis.py`).

The whole run is a function of how loading went: `main` wraps the pipeline in
`try/except`, converting `FileNotFoundError` into a fixed friendly message
and any other exception into its message, always returning normally (no
stack trace); the flight analyzer instead leaves `self.df = None` after a
failed load and `run_complete_analysis` returns before any stage when the
table is absent. -/

/-- Outcome of `pd.read_csv` in `load_and_inspect_data`: success with a
table of `n` rows, a missing file, or any other raised error. -/
inductive LoadResult : Type
  | ok : ℕ → LoadResult
  | fileNotFound : LoadResult
  | failed : String → LoadResult

/-- What a run leaves behind: which analysis stages ran, the printed error
message (if any), and the number of data rows processed. -/
structure RunOutput where
  stagesRun : List String
  errorMessage : Option String
  rowsProcessed : ℕ

/-- The analysis stages `main` runs after loading, in order (lines 340-347). -/
def edaStages : List String :=
  ["check_data_quality", "descriptive_statistics", "continent_analysis",
   "correlation_analysis", "top_consumers_analysis", "outlier_analysis",
   "create_visualizations", "generate_insights"]

/-- Lines 333-360: the `try/except` of `main`. -/
def edaMain : LoadResult → RunOutput
  | .ok n => ⟨edaStages, none, n⟩
  | .fileNotFound =>
      ⟨[], some "Error: drinks.csv file not found in current directory.", 0⟩
  | .failed msg => ⟨[], some ("An error occurred during analysis: " ++ msg), 0⟩

/-- The stages of `run_complete_analysis` (lines 404-411). -/
def flightStages : List String :=
  ["basic_info", "data_quality_check", "descriptive_statistics",
   "fare_analysis", "route_analysis", "market_analysis",
   "correlation_analysis", "generate_summary_report"]

/-- Lines 394-411: `run_complete_analysis`, whose table is `none` when
`load_data` caught an error (lines 28-39). -/
def flightRun : Option ℕ → RunOutput
  | none => ⟨[], some "No data available for analysis!", 0⟩
  | some n => ⟨flightStages, none, n⟩

/-- C9: when the input file does not exist both programs print a user-facing
message and return normally (the embedding is a total function into
`RunOutput`, never a propagated exception), zero rows are processed and no
analysis stage runs; any other load error likewise yields only its printed
message; a successful load runs every stage with the loaded row count. -/
theorem clean_exit_spec :
    (edaMain .fileNotFound).stagesRun = []
    ∧ (edaMain .fileNotFound).rowsProcessed = 0
    ∧ (edaMain .fileNotFound).errorMessage =
        some "Error: drinks.csv file not found in current directory."
    ∧ (∀ msg, (edaMain (.failed msg)).errorMessage =
        some ("An error occurred during analysis: " ++ msg)
        ∧ (edaMain (.failed msg)).stagesRun = []
        ∧ (edaMain (.failed msg)).rowsProcessed = 0)
    ∧ (flightRun none).stagesRun = []
    ∧ (flightRun none).rowsProcessed = 0
    ∧ (flightRun none).errorMessage.isSome = true
    ∧ (∀ n, (edaMain (.ok n)).rowsProcessed = n
        ∧ (edaMain (.ok n)).errorMessage = none
        ∧ (edaMain (.ok n)).stagesRun = edaStages
        ∧ (flightRun (some n)).stagesRun = flightStages) :=
  ⟨rfl, rfl, rfl, fun _ => ⟨rfl, rfl, rfl⟩, rfl, rfl, rfl,
    fun _ => ⟨rfl, rfl, rfl, rfl⟩⟩

/-! ## Southwest fare-reduction guards (`fare_analysis` lines 154 and
179-181, `generate_summary_report` lines 360-369 of
`flight_data_analysis.py`). -/

/-- Fares of the rows of one `SW` group
(`df[df['SW'] == g]['FARE']`; also the bars of `df.groupby('SW')['FARE']`). -/
def groupFares {ρ : Type} (rows : List ρ) (sw : ρ → String) (fare : ρ → ℚ)
    (g : String) : List ℚ :=
  (rows.filter fun r => decide (sw r = g)).map fare

/-- Lines 179-181: the fare-reduction percentage is computed and printed only
when both `'Yes'` and `'No'` appear in the `SW` group index. -/
def sw_fare_reduction {ρ : Type} (rows : List ρ) (sw : ρ → String)
    (fare : ρ → ℚ) : Option ℚ :=
  if "Yes" ∈ rows.map sw ∧ "No" ∈ rows.map sw then
    some ((mean (groupFares rows sw fare "No") - mean (groupFares rows sw fare "Yes"))
      / mean (groupFares rows sw fare "No") * 100)
  else none

/-- Lines 360-369: the summary report's percentage is additionally guarded by
`non_sw_avg_fare > sw_avg_fare`. -/
def summary_fare_reduction {ρ : Type} (rows : List ρ) (sw : ρ → String)
    (fare : ρ → ℚ) : Option ℚ :=
  if "Yes" ∈ rows.map sw ∧ "No" ∈ rows.map sw then
    if mean (groupFares rows sw fare "Yes") < mean (groupFares rows sw fare "No") then
      some ((mean (groupFares rows sw fare "No") - mean (groupFares rows sw fare "Yes"))
        / mean (groupFares rows sw fare "No") * 100)
    else none
  else none

/-- C10: the fare-reduction line is emitted iff both a `'Yes'` and a `'No'`
group exist in the `SW` column (for the summary report, additionally only
when the non-Southwest mean fare is strictly greater); under the guard each
looked-up group is nonempty, so its mean is a well-defined number; when
either group is absent both output lines are omitted (`none`) rather than an
error being raised. -/
theorem sw_guard_spec :
    ∀ (ρ : Type) (rows : List ρ) (sw : ρ → String) (fare : ρ → ℚ),
      ((sw_fare_reduction rows sw fare).isSome ↔
        "Yes" ∈ rows.map sw ∧ "No" ∈ rows.map sw)
      ∧ ((summary_fare_reduction rows sw fare).isSome ↔
        ("Yes" ∈ rows.map sw ∧ "No" ∈ rows.map sw) ∧
          mean (groupFares rows sw fare "Yes") < mean (groupFares rows sw fare "No"))
      ∧ (∀ g, g ∈ rows.map sw → groupFares rows sw fare g ≠ [])
      ∧ (¬("Yes" ∈ rows.map sw ∧ "No" ∈ rows.map sw) →
          sw_fare_reduction rows sw fare = none
          ∧ summary_fare_reduction rows sw fare = none) := by
  intro ρ rows sw fare
  refine ⟨?_, ?_, ?_, ?_⟩
  · rw [sw_fare_reduction]
    by_cases h : "Yes" ∈ rows.map sw ∧ "No" ∈ rows.map sw
    · rw [if_pos h]
      exact ⟨fun _ => h, fun _ => rfl⟩
    · rw [if_neg h]
      exact ⟨fun h' => absurd h' (by simp), fun hr => absurd hr h⟩
  · rw [summary_fare_reduction]
    by_cases h : "Yes" ∈ rows.map sw ∧ "No" ∈ rows.map sw
    · rw [if_pos h]
      by_cases h2 : mean (groupFares rows sw fare "Yes")
          < mean (groupFares rows sw fare "No")
      · rw [if_pos h2]
        exact ⟨fun _ => ⟨h, h2⟩, fun _ => rfl⟩
      · rw [if_neg h2]
        exact ⟨fun h' => absurd h' (by simp), fun hr => absurd hr.2 h2⟩
    · rw [if_neg h]
      exact ⟨fun h' => absurd h' (by simp), fun hr => absurd hr.1 h⟩
  · intro g hg
    rw [List.mem_map] at hg
    obtain ⟨r, hr, hrg⟩ := hg
    intro hnil
    rw [groupFares, List.map_eq_nil_iff] at hnil
    have : r ∈ rows.filter fun r => decide (sw r = g) :=
      List.mem_filter.mpr ⟨hr, by simp [hrg]⟩
    rw [hnil] at this
    exact List.not_mem_nil r this
  · intro h
    rw [sw_fare_reduction, if_neg h, summary_fare_reduction, if_neg h]
    exact ⟨rfl, rfl⟩

end EDA
